import Mathlib

/-!
Verification of the 0WM-OpMode floorplan/georeferencing core.

The JavaScript sources are embedded shallowly over ℚ:
* `src/js/components/world-map.mjs` — the 3-point affine transform solver
  (`#computeTransformation`), the overlay update (`updateOverlay`) and the
  pixel-per-meter scale estimate (`getScale`).
* the floorplan editor module (`FloorplanEditor`) — shapes, the hover
  resolver, the pointer/keyboard state machine, redraw/status.

The geometry library `/js/linalg.mjs` (Point2, Vector2, Matrix2, Polygon2,
Segment2) is not part of the sources; the primitives the embedded code uses
are modelled from the specification (each such definition is marked
`Modelled from the spec:`).  JavaScript numbers are modelled as rationals;
`Math.sqrt` and the trigonometry inside the haversine distance are
transcendental and are abstracted as function parameters where they occur.
Euclidean-norm comparisons `v.norm() ≤ m` with `m ≥ 0` are embedded as the
equivalent squared comparisons `v.sqnorm() ≤ m*m`.
-/

namespace ZeroWM

/-- Modelled from the spec: `Point2 (x, y)`, a location in floorplan pixel
space or in (lng, lat) geographic space (`linalg.mjs` is not in src). -/
@[ext]
structure Point2 where
  x : ℚ
  y : ℚ
deriving DecidableEq, Repr

/-- Modelled from the spec: `Vector2 (dx, dy)`, a displacement
(`linalg.mjs` is not in src). -/
@[ext]
structure Vector2 where
  x : ℚ
  y : ℚ
deriving DecidableEq, Repr

/-- Modelled from the spec: `v1 = src1 − src0` is written `src[0].to(src[1])`
in the solver, so `p.to q` is the displacement from `p` to `q`. -/
def Point2.to (p q : Point2) : Vector2 :=
  ⟨q.x - p.x, q.y - p.y⟩

/-- Modelled from the spec: 2D cross product (scalar) of two vectors. -/
def Vector2.cross (v w : Vector2) : ℚ :=
  v.x * w.y - v.y * w.x

/-- Modelled from the spec: squared norm of a displacement.  The source's
`norm()` is `Math.sqrt` of this quantity. -/
def Vector2.sqnorm (v : Vector2) : ℚ :=
  v.x * v.x + v.y * v.y

/-- Modelled from the spec: translating a point by a vector
(`.plus(transformation[1])` in `updateOverlay`). -/
def Point2.plus (p : Point2) (v : Vector2) : Point2 :=
  ⟨p.x + v.x, p.y + v.y⟩

/-- Modelled from the spec: `p.scaled(s)` multiplies both coordinates by a
scalar (used to convert canvas coordinates to image pixels). -/
def Point2.scaled (p : Point2) (s : ℚ) : Point2 :=
  ⟨p.x * s, p.y * s⟩

/-- Modelled from the spec: a 2×2 matrix `Matrix2(a, b, c, d)`, row-major. -/
@[ext]
structure Matrix2 where
  a : ℚ
  b : ℚ
  c : ℚ
  d : ℚ
deriving DecidableEq, Repr

/-- Modelled from the spec: applying the linear map, `M·p`. -/
def Matrix2.appliedTo (m : Matrix2) (p : Point2) : Point2 :=
  ⟨m.a * p.x + m.b * p.y, m.c * p.x + m.d * p.y⟩

/-- Affine application `transformation[0].appliedTo(p).plus(transformation[1])`
from `updateOverlay` (world-map.mjs line 208): `M·p + t`. -/
def applyTransformation (m : Matrix2) (t : Vector2) (p : Point2) : Point2 :=
  (m.appliedTo p).plus t

/-- The transform solver `#computeTransformation` (world-map.mjs lines
222-242).  The source reads exactly indices 0, 1, 2 of both anchor arrays;
the embedding takes the six points directly.  The float literal `1e-12`
is the rational `1/10^12`. -/
def computeTransformation (s0 s1 s2 d0 d1 d2 : Point2) :
    Option (Matrix2 × Vector2) :=
  let srcV1 := s0.to s1
  let srcV2 := s0.to s2
  let dstV1 := d0.to d1
  let dstV2 := d0.to d2
  let det := srcV1.cross srcV2
  if |det| < 1 / 10 ^ 12 then
    none
  else
    let a := (dstV1.x * srcV2.y - dstV2.x * srcV1.y) / det
    let c := (dstV1.y * srcV2.y - dstV2.y * srcV1.y) / det
    let b := (-dstV1.x * srcV2.x + dstV2.x * srcV1.x) / det
    let d := (-dstV1.y * srcV2.x + dstV2.y * srcV1.x) / det
    let dx := d0.x - a * s0.x - b * s0.y
    let dy := d0.y - c * s0.x - d * s0.y
    some (⟨a, b, c, d⟩, ⟨dx, dy⟩)

/-- The mutable state of the `WorldMap` component that `updateOverlay`
touches: the cached pixel-per-meter scale (`#scale`), the image overlay
(`#overlay`, kept as its URL and the three placed corners), and the
geographic positions of the three draggable map markers (`#anchors`,
`none` when the markers have not been created). -/
structure MapState where
  scale : Option ℚ
  overlay : Option (String × List Point2)
  mapAnchors : Option (List Point2)
deriving DecidableEq, Repr

/-- `#getDstAnchors` (world-map.mjs lines 183-190): the marker positions as
(lng, lat) points, or `[]` when `#anchors` is null (`?? []`). -/
def getDstAnchors (st : MapState) : List Point2 :=
  st.mapAnchors.getD []

/-- `updateOverlay` (world-map.mjs lines 192-220).  `sqrtFn` models
`Math.sqrt` (so `new Vector2(w, h).norm()` is `sqrtFn` of the squared norm)
and `havFn` models the haversine distance `hav` of lines 17-21 applied to
the two `L.latLng` corners (transcendental, hence abstracted).  The overlay
branch keeps the previously loaded image URL when repositioning. -/
def updateOverlay (sqrtFn : ℚ → ℚ) (havFn : Point2 → Point2 → ℚ)
    (st : MapState) (src : Point2 × Point2 × Point2) (srcRect : Point2)
    (url : String) (dstAnchors : Option (List Point2)) : MapState :=
  let st1 : MapState := { st with scale := none }
  match dstAnchors.getD (getDstAnchors st) with
  | [d0, d1, d2] =>
    match computeTransformation src.1 src.2.1 src.2.2 d0 d1 d2 with
    | none => st1
    | some (m, t) =>
      let c0 := applyTransformation m t ⟨0, 0⟩
      let c1 := applyTransformation m t ⟨srcRect.x, 0⟩
      let c2 := applyTransformation m t ⟨0, srcRect.y⟩
      let st2 : MapState :=
        if dstAnchors = none then
          { st1 with
            scale := some (sqrtFn (Vector2.sqnorm ⟨srcRect.x, srcRect.y⟩) /
                           havFn c1 c2) }
        else st1
      match st2.overlay with
      | none => { st2 with overlay := some (url, [c0, c1, c2]) }
      | some (oldUrl, _) => { st2 with overlay := some (oldUrl, [c0, c1, c2]) }
  | _ => st1

/-- `getScale` (world-map.mjs lines 244-247). -/
def getScale (st : MapState) : Option ℚ :=
  st.scale

/-- C1: if the three source anchors are not numerically collinear
(`|cross(src1-src0, src2-src0)| ≥ 1e-12`), the solver returns a matrix and
translation that map every source anchor exactly onto its destination
anchor (in particular within `1e-9` in each coordinate), with
`M·src0 + t = dst0` holding exactly by back-substitution. -/
theorem computeTransformation_roundTrip (s0 s1 s2 d0 d1 d2 : Point2)
    (h : 1 / 10 ^ 12 ≤ |Vector2.cross (Point2.to s0 s1) (Point2.to s0 s2)|) :
    ∃ m t, computeTransformation s0 s1 s2 d0 d1 d2 = some (m, t) ∧
      applyTransformation m t s0 = d0 ∧
      applyTransformation m t s1 = d1 ∧
      applyTransformation m t s2 = d2 ∧
      |(applyTransformation m t s0).x - d0.x| ≤ 1 / 10 ^ 9 ∧
      |(applyTransformation m t s0).y - d0.y| ≤ 1 / 10 ^ 9 ∧
      |(applyTransformation m t s1).x - d1.x| ≤ 1 / 10 ^ 9 ∧
      |(applyTransformation m t s1).y - d1.y| ≤ 1 / 10 ^ 9 ∧
      |(applyTransformation m t s2).x - d2.x| ≤ 1 / 10 ^ 9 ∧
      |(applyTransformation m t s2).y - d2.y| ≤ 1 / 10 ^ 9 := by
  have hnlt : ¬ |Vector2.cross (Point2.to s0 s1) (Point2.to s0 s2)| <
      1 / 10 ^ 12 := not_lt.mpr h
  have hdet : Vector2.cross (Point2.to s0 s1) (Point2.to s0 s2) ≠ 0 := by
    intro h0
    rw [h0, abs_zero] at h
    norm_num at h
  have hdet' : (s1.x - s0.x) * (s2.y - s0.y) - (s1.y - s0.y) * (s2.x - s0.x)
      ≠ 0 := by
    simpa [Point2.to, Vector2.cross] using hdet
  obtain ⟨m, t, hmt⟩ : ∃ m t,
      computeTransformation s0 s1 s2 d0 d1 d2 = some (m, t) := by
    simp only [computeTransformation]
    rw [if_neg hnlt]
    exact ⟨_, _, rfl⟩
  have hmt0 := hmt
  simp only [computeTransformation] at hmt
  rw [if_neg hnlt] at hmt
  injection hmt with hpair
  rw [Prod.mk.injEq] at hpair
  obtain ⟨hm, ht⟩ := hpair
  have he0 : applyTransformation m t s0 = d0 := by
    rw [← hm, ← ht]
    apply Point2.ext <;>
      · simp only [applyTransformation, Matrix2.appliedTo, Point2.plus,
          Point2.to, Vector2.cross]
        ring
  have he1 : applyTransformation m t s1 = d1 := by
    rw [← hm, ← ht]
    apply Point2.ext <;>
      · simp only [applyTransformation, Matrix2.appliedTo, Point2.plus,
          Point2.to, Vector2.cross]
        field_simp
        ring
  have he2 : applyTransformation m t s2 = d2 := by
    rw [← hm, ← ht]
    apply Point2.ext <;>
      · simp only [applyTransformation, Matrix2.appliedTo, Point2.plus,
          Point2.to, Vector2.cross]
        field_simp
        ring
  refine ⟨m, t, hmt0, he0, he1, he2, ?_, ?_, ?_, ?_, ?_, ?_⟩ <;>
    simp only [he0, he1, he2, sub_self, abs_zero] <;> norm_num

/-- Witness for C1: the spec's round-trip example,
src = (0,0),(100,0),(0,100), dst = (2.000,48.000),(2.001,48.000),
(2.000,48.001). -/
theorem computeTransformation_roundTrip_witness :
    ∃ m t, computeTransformation ⟨0, 0⟩ ⟨100, 0⟩ ⟨0, 100⟩
        ⟨2, 48⟩ ⟨2001 / 1000, 48⟩ ⟨2, 48001 / 1000⟩ = some (m, t) ∧
      applyTransformation m t ⟨0, 0⟩ = ⟨2, 48⟩ ∧
      applyTransformation m t ⟨100, 0⟩ = ⟨2001 / 1000, 48⟩ ∧
      applyTransformation m t ⟨0, 100⟩ = ⟨2, 48001 / 1000⟩ ∧
      |(applyTransformation m t ⟨0, 0⟩).x - (2 : ℚ)| ≤ 1 / 10 ^ 9 ∧
      |(applyTransformation m t ⟨0, 0⟩).y - (48 : ℚ)| ≤ 1 / 10 ^ 9 ∧
      |(applyTransformation m t ⟨100, 0⟩).x - (2001 / 1000 : ℚ)| ≤ 1 / 10 ^ 9 ∧
      |(applyTransformation m t ⟨100, 0⟩).y - (48 : ℚ)| ≤ 1 / 10 ^ 9 ∧
      |(applyTransformation m t ⟨0, 100⟩).x - (2 : ℚ)| ≤ 1 / 10 ^ 9 ∧
      |(applyTransformation m t ⟨0, 100⟩).y - (48001 / 1000 : ℚ)| ≤
        1 / 10 ^ 9 :=
  computeTransformation_roundTrip ⟨0, 0⟩ ⟨100, 0⟩ ⟨0, 100⟩
    ⟨2, 48⟩ ⟨2001 / 1000, 48⟩ ⟨2, 48001 / 1000⟩
    (by norm_num [Point2.to, Vector2.cross])

/-- C2: with numerically collinear source anchors
(`|cross(src1-src0, src2-src0)| < 1e-12`) the solver returns the failure
sentinel `null`, and `updateOverlay` invoked with such anchors returns
early, leaving the existing overlay exactly as it was (neither repositioned
nor replaced). -/
theorem computeTransformation_collinear_fails (s0 s1 s2 d0 d1 d2 : Point2)
    (h : |Vector2.cross (Point2.to s0 s1) (Point2.to s0 s2)| < 1 / 10 ^ 12) :
    computeTransformation s0 s1 s2 d0 d1 d2 = none ∧
    ∀ (sqrtFn : ℚ → ℚ) (havFn : Point2 → Point2 → ℚ) (st : MapState)
      (srcRect : Point2) (url : String) (dstA : Option (List Point2)),
      dstA.getD (getDstAnchors st) = [d0, d1, d2] →
      (updateOverlay sqrtFn havFn st (s0, s1, s2) srcRect url dstA).overlay =
        st.overlay := by
  have hnone : computeTransformation s0 s1 s2 d0 d1 d2 = none := by
    simp only [computeTransformation]
    rw [if_pos h]
  refine ⟨hnone, ?_⟩
  intro sqrtFn havFn st srcRect url dstA hA
  simp only [updateOverlay, hA, hnone]

/-- Witness for C2: the spec's collinear example src = (0,0),(50,0),(100,0)
with a non-degenerate dst. -/
theorem computeTransformation_collinear_fails_witness :
    computeTransformation ⟨0, 0⟩ ⟨50, 0⟩ ⟨100, 0⟩ ⟨2, 48⟩ ⟨3, 48⟩ ⟨2, 49⟩ =
      none ∧
    (updateOverlay (fun q => q) (fun _ _ => 1)
        ⟨none, some ("map.png", []), none⟩ (⟨0, 0⟩, ⟨50, 0⟩, ⟨100, 0⟩)
        ⟨640, 480⟩ "other.png"
        (some [⟨2, 48⟩, ⟨3, 48⟩, ⟨2, 49⟩])).overlay =
      some ("map.png", []) := by
  have key := computeTransformation_collinear_fails ⟨0, 0⟩ ⟨50, 0⟩ ⟨100, 0⟩
    ⟨2, 48⟩ ⟨3, 48⟩ ⟨2, 49⟩ (by norm_num [Point2.to, Vector2.cross])
  exact ⟨key.1, key.2 (fun q => q) (fun _ _ => 1)
    ⟨none, some ("map.png", []), none⟩ ⟨640, 480⟩ "other.png"
    (some [⟨2, 48⟩, ⟨3, 48⟩, ⟨2, 49⟩]) rfl⟩

/-- C3: when `updateOverlay` runs from freshly placed anchors (no persisted
destination anchors supplied) and the solver succeeds, the exposed scale is
the pixel-space diagonal length (the square root of `width² + height²`)
divided by the haversine distance between the projected width-corner and
the projected height-corner; when the update is driven by persisted
destination anchors, the scale is left unavailable (`null`). -/
theorem updateOverlay_scale (sqrtFn : ℚ → ℚ) (havFn : Point2 → Point2 → ℚ)
    (st : MapState) (s0 s1 s2 : Point2) (srcRect : Point2) (url : String)
    (d0 d1 d2 : Point2) (m : Matrix2) (t : Vector2)
    (hA : getDstAnchors st = [d0, d1, d2])
    (hM : computeTransformation s0 s1 s2 d0 d1 d2 = some (m, t)) :
    (updateOverlay sqrtFn havFn st (s0, s1, s2) srcRect url none).scale =
      some (sqrtFn (srcRect.x * srcRect.x + srcRect.y * srcRect.y) /
        havFn (applyTransformation m t ⟨srcRect.x, 0⟩)
          (applyTransformation m t ⟨0, srcRect.y⟩)) ∧
    ∀ persisted : List Point2,
      (updateOverlay sqrtFn havFn st (s0, s1, s2) srcRect url
        (some persisted)).scale = none := by
  constructor
  · simp only [updateOverlay, Option.getD_none, hA, hM, Vector2.sqnorm]
    rcases hov : st.overlay with _ | ⟨oldUrl, pts⟩ <;> simp [hov]
  · intro persisted
    rcases persisted with _ | ⟨a, _ | ⟨b, _ | ⟨c, _ | ⟨d, tl⟩⟩⟩⟩ <;>
      simp only [updateOverlay, Option.getD_some] <;>
      try rfl
    rcases hm : computeTransformation s0 s1 s2 a b c with _ | ⟨mm, tt⟩
    · simp [hm]
    · rcases hov : st.overlay with _ | ⟨oldUrl, pts⟩ <;> simp [hm, hov]

/-- Witness for C3: a fresh update with non-collinear anchors yields the
diagonal-over-haversine scale, and a persisted update leaves it `null`. -/
theorem updateOverlay_scale_witness :
    (updateOverlay (fun _ => 50) (fun _ _ => 2)
        ⟨some 7, none, some [⟨2, 48⟩, ⟨3, 48⟩, ⟨2, 49⟩]⟩
        (⟨0, 0⟩, ⟨100, 0⟩, ⟨0, 100⟩) ⟨30, 40⟩ "plan.png" none).scale =
      some ((50 : ℚ) / 2) ∧
    ∀ persisted : List Point2,
      (updateOverlay (fun _ => 50) (fun _ _ => 2)
        ⟨some 7, none, some [⟨2, 48⟩, ⟨3, 48⟩, ⟨2, 49⟩]⟩
        (⟨0, 0⟩, ⟨100, 0⟩, ⟨0, 100⟩) ⟨30, 40⟩ "plan.png"
        (some persisted)).scale = none := by
  have key := updateOverlay_scale (fun _ => 50) (fun _ _ => 2)
    ⟨some 7, none, some [⟨2, 48⟩, ⟨3, 48⟩, ⟨2, 49⟩]⟩
    ⟨0, 0⟩ ⟨100, 0⟩ ⟨0, 100⟩ ⟨30, 40⟩ "plan.png"
    ⟨2, 48⟩ ⟨3, 48⟩ ⟨2, 49⟩
    ⟨1 / 100, 0, 0, 1 / 100⟩ ⟨2, 48⟩ rfl
    (by norm_num [computeTransformation, Point2.to, Vector2.cross])
  exact ⟨key.1, key.2⟩

/-- C10: every overlay update resets the cached scale to `null` before any
validation, so any failing update (destination anchor count different from
3, or a collinear-source solver failure) leaves the exposed scale
unavailable regardless of the state left by earlier successful updates. -/
theorem updateOverlay_failure_clears_scale (sqrtFn : ℚ → ℚ)
    (havFn : Point2 → Point2 → ℚ) (st : MapState)
    (src : Point2 × Point2 × Point2) (srcRect : Point2) (url : String)
    (dstA : Option (List Point2))
    (h : (dstA.getD (getDstAnchors st)).length ≠ 3 ∨
      ∃ d0 d1 d2, dstA.getD (getDstAnchors st) = [d0, d1, d2] ∧
        computeTransformation src.1 src.2.1 src.2.2 d0 d1 d2 = none) :
    (updateOverlay sqrtFn havFn st src srcRect url dstA).scale = none := by
  rcases hl : dstA.getD (getDstAnchors st) with _ | ⟨a, _ | ⟨b, _ | ⟨c,
      _ | ⟨d, tl⟩⟩⟩⟩ <;>
    simp only [updateOverlay, hl] <;> try rfl
  rcases h with h3 | ⟨d0, d1, d2, heq, hnone⟩
  · rw [hl] at h3
    simp at h3
  · rw [hl] at heq
    injection heq with h0 heq
    injection heq with h1 heq
    injection heq with h2 heq
    rw [h0, h1, h2, hnone]

/-- Witness for C10: an update receiving only two destination anchors wipes
a previously cached scale. -/
theorem updateOverlay_failure_clears_scale_witness :
    (updateOverlay (fun q => q) (fun _ _ => 1)
        ⟨some 5, none, none⟩ (⟨0, 0⟩, ⟨100, 0⟩, ⟨0, 100⟩) ⟨30, 40⟩ "p.png"
        (some [⟨2, 48⟩, ⟨3, 48⟩])).scale = none :=
  updateOverlay_failure_clears_scale (fun q => q) (fun _ _ => 1)
    ⟨some 5, none, none⟩ (⟨0, 0⟩, ⟨100, 0⟩, ⟨0, 100⟩) ⟨30, 40⟩ "p.png"
    (some [⟨2, 48⟩, ⟨3, 48⟩]) (Or.inl (by decide))

/-! The floorplan editor (`FloorplanEditor`).  The embedding covers the
shape list, the interaction state machine fields, the hover resolver
`#findHoverAnchor`, the commit phase of the pointer/keyboard handlers, the
validity check `#isInvalid` and the status computation performed by
`#redraw`.  Canvas drawing, pointer capture and the keyboard-indicator DOM
updates are presentation-only and have no effect on this state. -/

/-- A shape owned by the editor: `Segment2` (two endpoints) or `Polygon2`
(vertex list).  The dispatch on `shape.constructor` in the source becomes
pattern matching. -/
inductive Shape where
  | segment (p q : Point2)
  | polygon (points : List Point2)
deriving DecidableEq, Repr

/-- Modelled from the spec: the `points` member shared by `Segment2` and
`Polygon2` (`linalg.mjs` is not in src). -/
def Shape.points : Shape → List Point2
  | .segment p q => [p, q]
  | .polygon pts => pts

/-- Whether a shape `instanceof Polygon2`. -/
def Shape.isPolygon : Shape → Bool
  | .segment _ _ => false
  | .polygon _ => true

/-- The editor's `#state` field: `'default' | 'drawing' | 'dragging'`. -/
inductive MachineState where
  | default
  | drawing
  | dragging
deriving DecidableEq, Repr

/-- The editor's `#drawingMode` field: `'polygon' | 'line'`. -/
inductive DrawingMode where
  | polygon
  | line
deriving DecidableEq, Repr

/-- Modelled from the spec: the two polygon intersection tests of
`linalg.mjs` (not in src), abstracted as parameters.  The `Bool` argument
is the second `Polygon2` constructor argument (`true` for the open
in-progress polygon, as in `new Polygon2(points, true)`; committed polygons
are built closed). -/
structure GeomOps where
  selfIntersecting : Bool → List Point2 → Bool
  polyIntersects : Bool → List Point2 → List Point2 → Bool

/-- The `FloorplanEditor` state touched by the embedded handlers.  Shape
references held by `#hoveredShape` / `#draggingShape` are represented by
the index of the referenced shape inside `#shapes` (the source keeps the
object itself and recovers the index with `indexOf`); the `-1` sentinel of
`#hoveredAnchor` / `#draggingAnchor` is kept as an integer. -/
structure EditorState where
  shapes : List Shape
  currentShape : List Point2
  state : MachineState
  drawingMode : DrawingMode
  hoveredShape : Option ℕ
  hoveredAnchor : ℤ
  hoveredEdge : Option ℕ
  hoveredEdgeProjection : Option Point2
  snapSource : Option Point2
  draggingShape : Option ℕ
  draggingAnchor : ℤ
  canClosePolygon : Bool
  cursor : Point2
  magnetism : ℚ
  scale : ℚ
  statusAttr : ℕ
  ctrlPressed : Bool
  shiftPressed : Bool
  altPressed : Bool
deriving DecidableEq, Repr

/-- A vertex is hit when `cursor.to(pt).norm() <= magnetism`
(`#findHoverAnchor`, line 773); with the nonnegative magnetism this is
equivalent to the squared comparison used here. -/
def vertexHit (c : Point2) (mag : ℚ) (p : Point2) : Bool :=
  Vector2.sqnorm (c.to p) ≤ mag * mag

/-- Inner loop of `#findHoverAnchor`: the first vertex index (counting from
`i`) whose vertex is within magnetism of the cursor. -/
def firstHitVertex (c : Point2) (mag : ℚ) : ℕ → List Point2 → Option ℕ
  | _, [] => none
  | i, p :: rest =>
    if vertexHit c mag p then some i else firstHitVertex c mag (i + 1) rest

/-- Outer loop of `#findHoverAnchor` (lines 764-780): scan the shapes from
index `k`, skipping the dragged shape, and stop at the first shape with a
hit vertex. -/
def findHoverAnchorFrom (c : Point2) (mag : ℚ) (drag : Option ℕ) :
    ℕ → List Shape → Option (ℕ × ℕ)
  | _, [] => none
  | k, s :: rest =>
    if drag = some k then findHoverAnchorFrom c mag drag (k + 1) rest
    else
      match firstHitVertex c mag 0 s.points with
      | some i => some (k, i)
      | none => findHoverAnchorFrom c mag drag (k + 1) rest

/-- `#findHoverAnchor` (lines 764-780): the hovered (shape index, vertex
index), or `none` when nothing is within magnetism. -/
def findHoverAnchor (c : Point2) (mag : ℚ) (drag : Option ℕ)
    (shapes : List Shape) : Option (ℕ × ℕ) :=
  findHoverAnchorFrom c mag drag 0 shapes

/-- The shape object currently referenced by `#hoveredShape`. -/
def hoveredShapeVal (st : EditorState) : Option Shape :=
  st.hoveredShape.bind fun k => st.shapes[k]?

/-- `#canRemoveAnchor` (lines 145-148): a polygon anchor is hovered and the
polygon still has at least 4 vertices. -/
def canRemoveAnchor (st : EditorState) : Bool :=
  decide (st.hoveredAnchor ≠ -1) &&
    (match hoveredShapeVal st with
     | some (Shape.polygon pts) => decide (4 ≤ pts.length)
     | _ => false)

/-- `#canSwitchToAnchorInsertion` (lines 150-152). -/
def canSwitchToAnchorInsertion (st : EditorState) : Bool :=
  (match hoveredShapeVal st with
   | some (Shape.polygon _) => true
   | _ => false) && decide (st.hoveredEdge ≠ none)

/-- `#canInsertAnchor` (lines 154-156). -/
def canInsertAnchor (st : EditorState) : Bool :=
  canSwitchToAnchorInsertion st && st.ctrlPressed &&
    decide (st.state = MachineState.default)

/-- `#canPerformRightClick` (lines 158-160). -/
def canPerformRightClick (st : EditorState) : Bool :=
  decide (st.hoveredShape ≠ none) && !canInsertAnchor st

/-- `#canPerformLeftClick` (lines 162-164):
`currentShape.at(-1).to(cursor).norm() > magnetism`, embedded as the
squared comparison.  The source never evaluates this with an empty
in-progress vertex list; that unreachable case is mapped to `false`. -/
def canPerformLeftClick (st : EditorState) : Bool :=
  match st.currentShape.getLast? with
  | some p => decide (st.magnetism * st.magnetism < Vector2.sqnorm (p.to st.cursor))
  | none => false

/-- Polygon-closure test of `#pointerMove` (lines 331-334): polygon mode,
at least 3 accumulated vertices, and `cursor.to(currentShape[0]).norm() <
magnetism` (embedded squared). -/
def computeCanClose (st : EditorState) : Bool :=
  decide (st.drawingMode = DrawingMode.polygon) &&
    decide (3 ≤ st.currentShape.length) &&
    (match st.currentShape.head? with
     | some p0 =>
       decide (Vector2.sqnorm (st.cursor.to p0) < st.magnetism * st.magnetism)
     | none => false)

/-- Modelled from the spec: `Polygon2.remove(index)`, structural mutation
by position with the index taken modulo the vertex count (`linalg.mjs` is
not in src). -/
def polygonRemove (pts : List Point2) (i : ℤ) : List Point2 :=
  pts.eraseIdx (i % (pts.length : ℤ)).toNat

/-- `#pushCurrentShape` (lines 751-762) followed by `#resetDefault` (lines
543-548): commit the in-progress vertices as a `Segment2` (line mode,
spread of the vertex list, which always holds exactly two points when this
runs) or a `Polygon2` (polygon mode), then clear the gesture state. -/
def pushCurrentShape (st : EditorState) : EditorState :=
  let committed : List Shape :=
    match st.drawingMode with
    | .line =>
      match st.currentShape with
      | p :: q :: _ => st.shapes ++ [Shape.segment p q]
      | _ => st.shapes
    | .polygon => st.shapes ++ [Shape.polygon st.currentShape]
  { st with shapes := committed, currentShape := [],
            state := MachineState.default, canClosePolygon := false }

/-- Commit phase of `#pointerUp` (lines 343-391).  The trailing re-dispatch
of the move handler (line 394) recomputes the cursor, the hover state and
the status display; it never touches `shapes` or `currentShape`. -/
def pointerUp (st : EditorState) (button : ℕ) (offset : Point2) :
    EditorState :=
  if button ≠ 0 then st
  else if st.draggingShape ≠ none then
    let st1 := { st with draggingShape := none, draggingAnchor := -1 }
    if st.state = MachineState.dragging then
      { st1 with state := MachineState.default }
    else
      { st1 with currentShape := [offset.scaled st.scale],
                 state := MachineState.drawing }
  else if st.state = MachineState.drawing then
    match st.drawingMode with
    | .line =>
      if canPerformLeftClick st then
        pushCurrentShape { st with currentShape := st.currentShape ++ [st.cursor] }
      else st
    | .polygon =>
      if st.canClosePolygon then pushCurrentShape st
      else if canPerformLeftClick st then
        { st with currentShape := st.currentShape ++ [st.cursor] }
      else st
  else st

/-- Deletion phase of `#rightClick` (lines 397-414): in default state, on a
hovered shape with no insertion in progress, either remove the hovered
polygon anchor (when the polygon keeps ≥ 3 vertices, i.e. currently has
≥ 4) or remove the whole hovered shape from the list.  The trailing
`#recomputeAfterEvent` (line 412) refreshes hover state and redraws without
touching the shape list. -/
def rightClick (st : EditorState) : EditorState :=
  if st.state = MachineState.default ∧ canPerformRightClick st = true then
    if canRemoveAnchor st then
      match st.hoveredShape with
      | some k =>
        match st.shapes[k]? with
        | some (Shape.polygon pts) =>
          { st with shapes :=
              st.shapes.set k (Shape.polygon (polygonRemove pts st.hoveredAnchor)) }
        | _ => st
      | none => st
    else
      match st.hoveredShape with
      | some k => { st with shapes := st.shapes.eraseIdx k }
      | none => st
  else st

/-- Skip-aware scan of `#isInvalid`'s loop (lines 717-724): does any
committed polygon other than the one at index `skip` intersect `p`? -/
def isInvalidScan (g : GeomOps) (opn : Bool) (p : List Point2)
    (skip : Option ℕ) : ℕ → List Shape → Bool
  | _, [] => false
  | j, s :: rest =>
    if skip = some j then isInvalidScan g opn p skip (j + 1) rest
    else
      match s with
      | Shape.polygon q =>
        g.polyIntersects opn p q || isInvalidScan g opn p skip (j + 1) rest
      | _ => isInvalidScan g opn p skip (j + 1) rest

/-- `#isInvalid` (lines 713-725): a polygon is invalid when it is
self-intersecting or intersects another committed polygon.  The `shape ===
p` identity skip is the `skip` index (`some k` when checking the committed
polygon stored at index `k`, `none` for the fresh in-progress polygon). -/
def isInvalid (g : GeomOps) (shapes : List Shape) (skip : Option ℕ)
    (opn : Bool) (p : List Point2) : Bool :=
  g.selfIntersecting opn p || isInvalidScan g opn p skip 0 shapes

/-- One drawn committed shape's contribution to the status: `#drawShape`
dispatches polygons to `#drawPolygon`, which flags status 2 when the
polygon is invalid (lines 659-675, 727-740); segments are drawn with
`#drawLine`, which never touches the status. -/
def shapeStatusHit (g : GeomOps) (shapes : List Shape) : ℕ × Shape → Bool
  | (k, Shape.polygon pts) => isInvalid g shapes (some k) false pts
  | _ => false

/-- The `for (const shape of this.#shapes)` draw loop of `#redraw` (lines
577-579), threading the last status value set (`none` when no
`setAttribute('status', _)` has happened yet). -/
def statusScan (g : GeomOps) (shapes : List Shape) :
    ℕ → List Shape → Option ℕ → Option ℕ
  | _, [], acc => acc
  | k, s :: rest, acc =>
    statusScan g shapes (k + 1) rest
      (if shapeStatusHit g shapes (k, s) then some 2 else acc)

/-- Status value after `#redraw` (lines 566-626): status 1 when no
committed polygon exists, status 2 for every invalid drawn polygon
(committed ones, and in drawing/polygon mode the open in-progress polygon
drawn at line 588), and status 0 at the end when nothing set a status.
The cursor-appended tentative polygon of lines 591-593 only picks the ghost
edge colour and never sets a status. -/
def redrawStatus (g : GeomOps) (st : EditorState) : ℕ :=
  let s1 : Option ℕ :=
    if (st.shapes.filter Shape.isPolygon).length = 0 then some 1 else none
  let s2 := statusScan g st.shapes 0 st.shapes s1
  let s3 :=
    if st.state = MachineState.drawing ∧ st.drawingMode = DrawingMode.polygon
    then (if isInvalid g st.shapes none true st.currentShape then some 2 else s2)
    else s2
  s3.getD 0

/-- `#redraw` as a state transformer: all canvas work is presentation-only;
the only component state it writes is the `status` attribute. -/
def redraw (g : GeomOps) (st : EditorState) : EditorState :=
  { st with statusAttr := redrawStatus g st }

/-- `#setDrawingMode` (lines 550-559): reset the gesture, hover and
dragging state, then redraw (the keyboard-indicator updates are DOM-only). -/
def setDrawingMode (g : GeomOps) (st : EditorState) (mode : DrawingMode) :
    EditorState :=
  redraw g
    { st with drawingMode := mode,
              currentShape := [], state := MachineState.default,
              canClosePolygon := false,
              hoveredShape := none, hoveredEdge := none, hoveredAnchor := -1,
              hoveredEdgeProjection := none, snapSource := none,
              draggingShape := none, draggingAnchor := -1 }

/-- The `e.code === 'Escape'` branch of `#keyDown` (lines 442-450):
re-enter the current drawing mode, which discards all in-progress state. -/
def escapeKeyDown (g : GeomOps) (st : EditorState) : EditorState :=
  setDrawingMode g st st.drawingMode

/-- Geometry instantiation for witnesses: every intersection test is false. -/
def gTrivial : GeomOps :=
  ⟨fun _ _ => false, fun _ _ _ => false⟩

/-- Editor fixture mirroring the constructor's initial field values. -/
def initialEditor : EditorState :=
  { shapes := [], currentShape := [], state := MachineState.default,
    drawingMode := DrawingMode.polygon,
    hoveredShape := none, hoveredAnchor := -1, hoveredEdge := none,
    hoveredEdgeProjection := none, snapSource := none,
    draggingShape := none, draggingAnchor := -1, canClosePolygon := false,
    cursor := ⟨0, 0⟩, magnetism := 8, scale := 1, statusAttr := 0,
    ctrlPressed := false, shiftPressed := false, altPressed := false }

/-- C8: redraw is idempotent — a second consecutive redraw produces the
identical state (in particular the same `status` attribute), and redraw
never changes the committed shape list. -/
theorem redraw_idempotent (g : GeomOps) (st : EditorState) :
    redraw g (redraw g st) = redraw g st ∧ (redraw g st).shapes = st.shapes :=
  ⟨rfl, rfl⟩

/-- C9: from the drawing or dragging state, the Escape transition returns
the machine to the default state, clears the in-progress vertex list and
all hovered/dragging state, and leaves the committed shape list untouched. -/
theorem escape_resets (g : GeomOps) (st : EditorState)
    (h : st.state = MachineState.drawing ∨ st.state = MachineState.dragging) :
    (escapeKeyDown g st).state = MachineState.default ∧
    (escapeKeyDown g st).currentShape = [] ∧
    (escapeKeyDown g st).hoveredShape = none ∧
    (escapeKeyDown g st).hoveredAnchor = -1 ∧
    (escapeKeyDown g st).hoveredEdge = none ∧
    (escapeKeyDown g st).hoveredEdgeProjection = none ∧
    (escapeKeyDown g st).snapSource = none ∧
    (escapeKeyDown g st).draggingShape = none ∧
    (escapeKeyDown g st).draggingAnchor = -1 ∧
    (escapeKeyDown g st).canClosePolygon = false ∧
    (escapeKeyDown g st).shapes = st.shapes :=
  ⟨rfl, rfl, rfl, rfl, rfl, rfl, rfl, rfl, rfl, rfl, rfl⟩

/-- Witness for C9: Escape pressed mid-drawing discards the accumulated
vertex and keeps the (empty) committed list. -/
theorem escape_resets_witness :
    (escapeKeyDown gTrivial
        { initialEditor with state := MachineState.drawing,
                             currentShape := [⟨1, 1⟩] }).state =
      MachineState.default ∧
    (escapeKeyDown gTrivial
        { initialEditor with state := MachineState.drawing,
                             currentShape := [⟨1, 1⟩] }).currentShape = [] ∧
    (escapeKeyDown gTrivial
        { initialEditor with state := MachineState.drawing,
                             currentShape := [⟨1, 1⟩] }).shapes =
      ({ initialEditor with state := MachineState.drawing,
                            currentShape := [⟨1, 1⟩] } : EditorState).shapes := by
  have key := escape_resets gTrivial
    { initialEditor with state := MachineState.drawing,
                         currentShape := [⟨1, 1⟩] } (Or.inl rfl)
  exact ⟨key.1, key.2.1, key.2.2.2.2.2.2.2.2.2.2⟩

/-- Fixture for C4: default state, one committed triangle, its vertex 0
hovered. -/
def triEditor : EditorState :=
  { initialEditor with
    shapes := [Shape.polygon [⟨0, 0⟩, ⟨10, 0⟩, ⟨0, 10⟩]],
    hoveredShape := some 0, hoveredAnchor := 0 }

/-- Counterexample for C4: right-clicking a hovered vertex of a 3-vertex
polygon is not a no-op — the code's else-branch deletes the whole shape,
emptying the committed list. -/
theorem rightClick_threeVertex_deletes_shape :
    (rightClick triEditor).shapes = [] ∧
    triEditor.shapes = [Shape.polygon [⟨0, 0⟩, ⟨10, 0⟩, ⟨0, 10⟩]] ∧
    triEditor.state = MachineState.default ∧
    triEditor.hoveredAnchor = 0 := by
  refine ⟨?_, rfl, rfl, rfl⟩
  decide

/-- C4 (amended): in the default state with a hovered polygon vertex,
right-click removes exactly the hovered vertex when the polygon has at
least 4 vertices; when it has exactly 3, the whole shape is deleted from
the committed list instead (no no-op). -/
theorem rightClick_vertex_delete (st : EditorState) (k i : ℕ)
    (pts : List Point2)
    (hstate : st.state = MachineState.default)
    (hhs : st.hoveredShape = some k)
    (hk : st.shapes[k]? = some (Shape.polygon pts))
    (hha : st.hoveredAnchor = (i : ℤ))
    (hi : i < pts.length)
    (hedge : st.hoveredEdge = none) :
    (pts.length = 3 → (rightClick st).shapes = st.shapes.eraseIdx k) ∧
    (4 ≤ pts.length →
      (rightClick st).shapes =
        st.shapes.set k (Shape.polygon (pts.eraseIdx i))) := by
  have hval : hoveredShapeVal st = some (Shape.polygon pts) := by
    simp [hoveredShapeVal, hhs, hk]
  have hswitch : canSwitchToAnchorInsertion st = false := by
    simp [canSwitchToAnchorInsertion, hedge]
  have hinsert : canInsertAnchor st = false := by
    simp [canInsertAnchor, hswitch]
  have hright : canPerformRightClick st = true := by
    simp [canPerformRightClick, hinsert, hhs]
  have hanchor : st.hoveredAnchor ≠ -1 := by
    rw [hha]
    omega
  constructor
  · intro h3
    have hrm : canRemoveAnchor st = false := by
      simp [canRemoveAnchor, hval, h3]
    simp [rightClick, hstate, hright, hrm, hhs]
  · intro h4
    have hrm : canRemoveAnchor st = true := by
      simp [canRemoveAnchor, hval, h4, hanchor]
    have hmod : polygonRemove pts st.hoveredAnchor = pts.eraseIdx i := by
      rw [hha]
      unfold polygonRemove
      rw [Int.emod_eq_of_lt (by omega) (by exact_mod_cast hi)]
      simp
    simp [rightClick, hstate, hright, hrm, hhs, hk, hmod]

/-- Fixture for C4's amended theorem: a hovered vertex of a 4-vertex
polygon. -/
def squareEditor : EditorState :=
  { initialEditor with
    shapes := [Shape.polygon [⟨0, 0⟩, ⟨10, 0⟩, ⟨10, 10⟩, ⟨0, 10⟩]],
    hoveredShape := some 0, hoveredAnchor := 1 }

/-- Witness for C4's amended theorem: deleting hovered vertex 1 of a square
leaves the other three vertices. -/
theorem rightClick_vertex_delete_witness :
    (rightClick squareEditor).shapes =
      [Shape.polygon [⟨0, 0⟩, ⟨10, 10⟩, ⟨0, 10⟩]] := by
  have key := rightClick_vertex_delete squareEditor 0 1
    [⟨0, 0⟩, ⟨10, 0⟩, ⟨10, 10⟩, ⟨0, 10⟩] rfl rfl rfl rfl (by norm_num) rfl
  simpa using key.2 (by norm_num)

/-- C6: in the drawing state, pointer-up appends the snapped cursor as a
new vertex exactly when it lies farther than magnetism from the previous
vertex; in line mode such a pointer-up immediately commits the 2-point
segment; in polygon mode closure happens only with at least 3 vertices and
the cursor within magnetism of the first vertex, and commits a polygon
holding exactly the accumulated vertices in order. -/
theorem pointerUp_drawing (st : EditorState) (off : Point2)
    (h1 : st.state = MachineState.drawing)
    (h2 : st.draggingShape = none)
    (hcc : st.canClosePolygon = computeCanClose st) :
    (st.drawingMode = DrawingMode.polygon → st.canClosePolygon = false →
      (pointerUp st 0 off).shapes = st.shapes ∧
      ∀ h3 : st.currentShape ≠ [],
        ((pointerUp st 0 off).currentShape = st.currentShape ++ [st.cursor] ↔
          st.magnetism * st.magnetism <
            Vector2.sqnorm ((st.currentShape.getLast h3).to st.cursor))) ∧
    (∀ p : Point2, st.drawingMode = DrawingMode.line →
      st.currentShape = [p] →
      (st.magnetism * st.magnetism < Vector2.sqnorm (p.to st.cursor) →
        (pointerUp st 0 off).shapes =
          st.shapes ++ [Shape.segment p st.cursor] ∧
        (pointerUp st 0 off).currentShape = [] ∧
        (pointerUp st 0 off).state = MachineState.default) ∧
      (¬ st.magnetism * st.magnetism < Vector2.sqnorm (p.to st.cursor) →
        pointerUp st 0 off = st)) ∧
    (st.canClosePolygon = true →
      st.drawingMode = DrawingMode.polygon ∧ 3 ≤ st.currentShape.length ∧
      (∃ p0, st.currentShape.head? = some p0 ∧
        Vector2.sqnorm (st.cursor.to p0) < st.magnetism * st.magnetism) ∧
      (pointerUp st 0 off).shapes =
        st.shapes ++ [Shape.polygon st.currentShape] ∧
      (pointerUp st 0 off).currentShape = [] ∧
      (pointerUp st 0 off).state = MachineState.default) := by
  have hbase : pointerUp st 0 off =
      (match st.drawingMode with
       | .line =>
         if canPerformLeftClick st then
           pushCurrentShape
             { st with currentShape := st.currentShape ++ [st.cursor] }
         else st
       | .polygon =>
         if st.canClosePolygon then pushCurrentShape st
         else if canPerformLeftClick st then
           { st with currentShape := st.currentShape ++ [st.cursor] }
         else st) := by
    simp [pointerUp, h1, h2]
  refine ⟨?_, ?_, ?_⟩
  · intro hp hc
    rw [hbase, hp, hc]
    simp only [if_false]
    constructor
    · by_cases hl : canPerformLeftClick st
      · simp [hl]
      · simp [hl]
    · intro h3
      have hlast : st.currentShape.getLast? = some (st.currentShape.getLast h3) :=
        List.getLast?_eq_getLast st.currentShape h3
      by_cases hl : canPerformLeftClick st
      · simp only [hl, if_true]
        have hl2 := hl
        simp only [canPerformLeftClick, hlast, decide_eq_true_eq] at hl2
        simpa using hl2
      · simp only [hl, if_false]
        have hl2 := hl
        simp only [canPerformLeftClick, hlast, decide_eq_true_eq] at hl2
        constructor
        · intro heq
          exfalso
          have := congrArg List.length heq
          simp at this
        · intro hfar
          exact absurd hfar hl2
  · intro p hp hcur
    have hlast : st.currentShape.getLast? = some p := by
      rw [hcur]
      rfl
    constructor
    · intro hfar
      have hl : canPerformLeftClick st = true := by
        simp [canPerformLeftClick, hlast, hfar]
      rw [hbase, hp]
      simp only [hl, if_true]
      simp [pushCurrentShape, hp, hcur]
    · intro hnear
      have hl : canPerformLeftClick st = false := by
        simp [canPerformLeftClick, hlast, hnear]
      rw [hbase, hp]
      simp [hl]
  · intro hc
    have hcc2 : computeCanClose st = true := by rw [← hcc, hc]
    simp only [computeCanClose, Bool.and_eq_true, decide_eq_true_eq] at hcc2
    obtain ⟨⟨hmode, hlen⟩, hhead⟩ := hcc2
    rcases hh : st.currentShape.head? with _ | p0
    · rw [hh] at hhead
      exact absurd hhead (by simp)
    · rw [hh] at hhead
      refine ⟨hmode, hlen, ⟨p0, rfl, by simpa using hhead⟩, ?_⟩
      rw [hbase, hmode]
      simp only [hc, if_true]
      simp [pushCurrentShape, hmode]

/-- Fixture for C6: the spec's drawing gesture about to close — vertices
(10,10), (200,10), (10,200) accumulated and the cursor back on (10,10). -/
def closingEditor : EditorState :=
  { initialEditor with
    state := MachineState.drawing,
    currentShape := [⟨10, 10⟩, ⟨200, 10⟩, ⟨10, 200⟩],
    cursor := ⟨10, 10⟩,
    canClosePolygon := true }

/-- Witness for C6: closing the gesture commits one polygon with exactly
the three accumulated vertices, in order. -/
theorem pointerUp_drawing_witness :
    (pointerUp closingEditor 0 ⟨0, 0⟩).shapes =
      [Shape.polygon [⟨10, 10⟩, ⟨200, 10⟩, ⟨10, 200⟩]] ∧
    (pointerUp closingEditor 0 ⟨0, 0⟩).currentShape = [] ∧
    (pointerUp closingEditor 0 ⟨0, 0⟩).state = MachineState.default := by
  have key := (pointerUp_drawing closingEditor ⟨0, 0⟩ rfl rfl
    (by norm_num [closingEditor, initialEditor, computeCanClose,
      Vector2.sqnorm, Point2.to])).2.2 rfl
  exact ⟨by simpa using key.2.2.2.1, key.2.2.2.2.1, key.2.2.2.2.2⟩

/-- Helper: where the inner vertex scan starting at index `i0` stops. -/
lemma firstHitVertex_some_iff (c : Point2) (mag : ℚ) (l : List Point2) :
    ∀ i0 i : ℕ,
      firstHitVertex c mag i0 l = some i ↔
        ∃ j p, i = i0 + j ∧ l[j]? = some p ∧ vertexHit c mag p = true ∧
          ∀ j2 q, j2 < j → l[j2]? = some q → vertexHit c mag q = false := by
  induction l with
  | nil =>
    intro i0 i
    simp [firstHitVertex]
  | cons p rest ih =>
    intro i0 i
    cases hp : vertexHit c mag p with
    | true =>
      simp only [firstHitVertex, hp, eq_self_iff_true, if_true]
      constructor
      · intro h
        injection h with h
        refine ⟨0, p, by omega, by simp, hp, ?_⟩
        intro j2 q hj2
        exact absurd hj2 (Nat.not_lt_zero _)
      · rintro ⟨j, q, hi, hget, hhit, hmin⟩
        cases j with
        | zero =>
          simp only [List.getElem?_cons_zero, Option.some.injEq] at hget
          congr 1
          omega
        | succ j3 =>
          have h0 := hmin 0 p (by omega) (by simp)
          rw [hp] at h0
          exact absurd h0 (by simp)
    | false =>
      simp only [firstHitVertex, hp, Bool.false_eq_true, if_false]
      rw [ih (i0 + 1) i]
      constructor
      · rintro ⟨j, q, hi, hget, hhit, hmin⟩
        refine ⟨j + 1, q, by omega, by simpa using hget, hhit, ?_⟩
        intro j2 r hj2 hget2
        cases j2 with
        | zero =>
          simp only [List.getElem?_cons_zero, Option.some.injEq] at hget2
          rw [← hget2]
          exact hp
        | succ j4 =>
          exact hmin j4 r (by omega) (by simpa using hget2)
      · rintro ⟨j, q, hi, hget, hhit, hmin⟩
        cases j with
        | zero =>
          simp only [List.getElem?_cons_zero, Option.some.injEq] at hget
          rw [hget] at hp
          rw [hp] at hhit
          exact absurd hhit (by simp)
        | succ j3 =>
          refine ⟨j3, q, by omega, by simpa using hget, hhit, ?_⟩
          intro j2 r hj2 hget2
          exact hmin (j2 + 1) r (by omega) (by simpa using hget2)

/-- Helper: the inner vertex scan finds nothing exactly when no vertex of
the shape is within magnetism. -/
lemma firstHitVertex_none_iff (c : Point2) (mag : ℚ) (l : List Point2) :
    ∀ i0 : ℕ,
      firstHitVertex c mag i0 l = none ↔
        ∀ p ∈ l, vertexHit c mag p = false := by
  induction l with
  | nil =>
    intro i0
    simp [firstHitVertex]
  | cons p rest ih =>
    intro i0
    cases hp : vertexHit c mag p with
    | true => simp [firstHitVertex, hp]
    | false =>
      simp only [firstHitVertex, hp, Bool.false_eq_true, if_false,
        ih (i0 + 1), List.mem_cons]
      constructor
      · intro hall q hq
        rcases hq with hq | hq
        · rw [hq]
          exact hp
        · exact hall q hq
      · intro hall q hq
        exact hall q (Or.inr hq)

/-- Helper: transporting a dragged-shape disequality along an index
identity. -/
lemma neSomeShift {d : Option ℕ} {a b : ℕ} (h : d ≠ some a) (hab : b = a) :
    d ≠ some b := by
  rw [hab]
  exact h

/-- Helper: where the outer shape scan starting at index `k0` stops. -/
lemma findHoverAnchorFrom_some_iff (c : Point2) (mag : ℚ) (drag : Option ℕ)
    (l : List Shape) :
    ∀ k0 k i : ℕ,
      findHoverAnchorFrom c mag drag k0 l = some (k, i) ↔
        ∃ j s, k = k0 + j ∧ l[j]? = some s ∧ drag ≠ some (k0 + j) ∧
          firstHitVertex c mag 0 s.points = some i ∧
          ∀ j2 s2, j2 < j → l[j2]? = some s2 → drag ≠ some (k0 + j2) →
            firstHitVertex c mag 0 s2.points = none := by
  induction l with
  | nil =>
    intro k0 k i
    simp [findHoverAnchorFrom]
  | cons s rest ih =>
    intro k0 k i
    by_cases hd : drag = some k0
    · subst hd
      simp only [findHoverAnchorFrom, eq_self_iff_true, if_true]
      rw [ih (k0 + 1) k i]
      constructor
      · rintro ⟨j, s2, hk, hget, hdrag, hfirst, hmin⟩
        refine ⟨j + 1, s2, by omega, by simpa using hget,
          neSomeShift hdrag (by omega), hfirst, ?_⟩
        intro j2 s3 hj2 hget2 hdrag2
        cases j2 with
        | zero =>
          exfalso
          exact hdrag2 (by simp)
        | succ j4 =>
          exact hmin j4 s3 (by omega) (by simpa using hget2)
            (neSomeShift hdrag2 (by omega))
      · rintro ⟨j, s2, hk, hget, hdrag, hfirst, hmin⟩
        cases j with
        | zero =>
          exfalso
          exact hdrag (by simp)
        | succ j3 =>
          refine ⟨j3, s2, by omega, by simpa using hget,
            neSomeShift hdrag (by omega), hfirst, ?_⟩
          intro j2 s3 hj2 hget2 hdrag2
          exact hmin (j2 + 1) s3 (by omega) (by simpa using hget2)
            (neSomeShift hdrag2 (by omega))
    · simp only [findHoverAnchorFrom, if_neg hd]
      rcases hf : firstHitVertex c mag 0 s.points with _ | i1
      · simp only [hf]
        rw [ih (k0 + 1) k i]
        constructor
        · rintro ⟨j, s2, hk, hget, hdrag, hfirst, hmin⟩
          refine ⟨j + 1, s2, by omega, by simpa using hget,
            neSomeShift hdrag (by omega), hfirst, ?_⟩
          intro j2 s3 hj2 hget2 hdrag2
          cases j2 with
          | zero =>
            simp only [List.getElem?_cons_zero, Option.some.injEq] at hget2
            rw [← hget2]
            exact hf
          | succ j4 =>
            exact hmin j4 s3 (by omega) (by simpa using hget2)
              (neSomeShift hdrag2 (by omega))
        · rintro ⟨j, s2, hk, hget, hdrag, hfirst, hmin⟩
          cases j with
          | zero =>
            exfalso
            simp only [List.getElem?_cons_zero, Option.some.injEq] at hget
            rw [← hget] at hfirst
            rw [hf] at hfirst
            exact absurd hfirst (by simp)
          | succ j3 =>
            refine ⟨j3, s2, by omega, by simpa using hget,
              neSomeShift hdrag (by omega), hfirst, ?_⟩
            intro j2 s3 hj2 hget2 hdrag2
            exact hmin (j2 + 1) s3 (by omega) (by simpa using hget2)
              (neSomeShift hdrag2 (by omega))
      · simp only [hf]
        constructor
        · intro h
          injection h with h
          injection h with hk hi
          refine ⟨0, s, by omega, by simp, by simpa using hd,
            by rw [hf, hi], ?_⟩
          intro j2 s3 hj2
          exact absurd hj2 (Nat.not_lt_zero _)
        · rintro ⟨j, s2, hk, hget, hdrag, hfirst, hmin⟩
          cases j with
          | zero =>
            simp only [List.getElem?_cons_zero, Option.some.injEq] at hget
            rw [← hget] at hfirst
            rw [hf] at hfirst
            injection hfirst with hi
            simp only [Nat.add_zero] at hk
            rw [hk, hi]
          | succ j3 =>
            exfalso
            have h0 := hmin 0 s (by omega) (by simp) (by simpa using hd)
            rw [hf] at h0
            exact absurd h0 (by simp)

/-- C5: the hover resolver reports the first shape in list order (skipping
the dragged shape) that has a vertex within magnetism of the cursor,
together with the first such vertex index inside that shape — ties are
decided by list position, never by distance. -/
theorem findHoverAnchor_first (c : Point2) (mag : ℚ) (drag : Option ℕ)
    (shapes : List Shape) (k i : ℕ) :
    findHoverAnchor c mag drag shapes = some (k, i) ↔
      ∃ s, shapes[k]? = some s ∧ drag ≠ some k ∧
        (∃ p, s.points[i]? = some p ∧ vertexHit c mag p = true) ∧
        (∀ i2 q, i2 < i → s.points[i2]? = some q →
          vertexHit c mag q = false) ∧
        (∀ k2 s2, k2 < k → shapes[k2]? = some s2 → drag ≠ some k2 →
          ∀ p ∈ s2.points, vertexHit c mag p = false) := by
  rw [findHoverAnchor, findHoverAnchorFrom_some_iff]
  constructor
  · rintro ⟨j, s, hk, hget, hdrag, hfirst, hmin⟩
    simp only [Nat.zero_add] at hk hdrag
    subst hk
    rw [firstHitVertex_some_iff] at hfirst
    obtain ⟨j2, p, hi, hget2, hhit, hmin2⟩ := hfirst
    simp only [Nat.zero_add] at hi
    subst hi
    refine ⟨s, hget, hdrag, ⟨p, hget2, hhit⟩, hmin2, ?_⟩
    intro k2 s2 hk2 hget3 hdrag2
    have := hmin k2 s2 hk2 hget3 (by simpa using hdrag2)
    rw [firstHitVertex_none_iff] at this
    exact this
  · rintro ⟨s, hget, hdrag, ⟨p, hget2, hhit⟩, hmin2, hminS⟩
    refine ⟨k, s, by omega, hget, by simpa using hdrag, ?_, ?_⟩
    · rw [firstHitVertex_some_iff]
      exact ⟨i, p, by omega, hget2, hhit, hmin2⟩
    · intro j2 s2 hj2 hget3 hdrag2
      rw [firstHitVertex_none_iff]
      exact hminS j2 s2 hj2 hget3 (by simpa using hdrag2)

/-- Helper: where the cross-polygon scan of `#isInvalid` finds an
intersection. -/
lemma isInvalidScan_iff (g : GeomOps) (opn : Bool) (p : List Point2)
    (skip : Option ℕ) (l : List Shape) :
    ∀ j0 : ℕ,
      isInvalidScan g opn p skip j0 l = true ↔
        ∃ j q, l[j]? = some (Shape.polygon q) ∧ skip ≠ some (j0 + j) ∧
          g.polyIntersects opn p q = true := by
  induction l with
  | nil =>
    intro j0
    simp [isInvalidScan]
  | cons s rest ih =>
    intro j0
    by_cases hs : skip = some j0
    · subst hs
      simp only [isInvalidScan, eq_self_iff_true, if_true]
      rw [ih (j0 + 1)]
      constructor
      · rintro ⟨j, q, hget, hskip, hint⟩
        exact ⟨j + 1, q, by simpa using hget, neSomeShift hskip (by omega),
          hint⟩
      · rintro ⟨j, q, hget, hskip, hint⟩
        cases j with
        | zero =>
          exfalso
          exact hskip (by simp)
        | succ j3 =>
          exact ⟨j3, q, by simpa using hget, neSomeShift hskip (by omega),
            hint⟩
    · simp only [isInvalidScan, if_neg hs]
      cases s with
      | segment p1 p2 =>
        rw [ih (j0 + 1)]
        constructor
        · rintro ⟨j, q, hget, hskip, hint⟩
          exact ⟨j + 1, q, by simpa using hget, neSomeShift hskip (by omega),
            hint⟩
        · rintro ⟨j, q, hget, hskip, hint⟩
          cases j with
          | zero =>
            exfalso
            simp at hget
          | succ j3 =>
            exact ⟨j3, q, by simpa using hget, neSomeShift hskip (by omega),
              hint⟩
      | polygon q0 =>
        simp only [Bool.or_eq_true]
        rw [ih (j0 + 1)]
        constructor
        · rintro (hint | ⟨j, q, hget, hskip, hint⟩)
          · exact ⟨0, q0, by simp, by simpa using hs, hint⟩
          · exact ⟨j + 1, q, by simpa using hget,
              neSomeShift hskip (by omega), hint⟩
        · rintro ⟨j, q, hget, hskip, hint⟩
          cases j with
          | zero =>
            left
            simp only [List.getElem?_cons_zero, Option.some.injEq,
              Shape.polygon.injEq] at hget
            rw [hget]
            exact hint
          | succ j3 =>
            right
            exact ⟨j3, q, by simpa using hget, neSomeShift hskip (by omega),
              hint⟩

/-- Helper: whether the draw loop flags any committed polygon from index
`k0` on. -/
def anyInvalidFrom (g : GeomOps) (shapes : List Shape) :
    ℕ → List Shape → Bool
  | _, [] => false
  | k, s :: rest =>
    shapeStatusHit g shapes (k, s) || anyInvalidFrom g shapes (k + 1) rest

/-- Helper: the status threading of the draw loop collapses to "2 as soon
as any drawn committed polygon is invalid". -/
lemma statusScan_eq (g : GeomOps) (shapes : List Shape) (l : List Shape) :
    ∀ (k0 : ℕ) (acc : Option ℕ),
      statusScan g shapes k0 l acc =
        if anyInvalidFrom g shapes k0 l then some 2 else acc := by
  induction l with
  | nil =>
    intro k0 acc
    simp [statusScan, anyInvalidFrom]
  | cons s rest ih =>
    intro k0 acc
    simp only [statusScan, anyInvalidFrom, ih (k0 + 1), Bool.or_eq_true]
    cases hh : shapeStatusHit g shapes (k0, s) <;>
      cases ha : anyInvalidFrom g shapes (k0 + 1) rest <;> simp

/-- Helper: the draw loop flags some polygon iff an invalid committed
polygon exists at an index past `k0`. -/
lemma anyInvalidFrom_iff (g : GeomOps) (shapes : List Shape)
    (l : List Shape) :
    ∀ k0 : ℕ,
      anyInvalidFrom g shapes k0 l = true ↔
        ∃ j pts, l[j]? = some (Shape.polygon pts) ∧
          isInvalid g shapes (some (k0 + j)) false pts = true := by
  induction l with
  | nil =>
    intro k0
    simp [anyInvalidFrom]
  | cons s rest ih =>
    intro k0
    simp only [anyInvalidFrom, Bool.or_eq_true, ih (k0 + 1)]
    cases s with
    | segment p1 p2 =>
      simp only [shapeStatusHit, Bool.false_eq_true, false_or]
      constructor
      · rintro ⟨j, pts, hget, hinv⟩
        refine ⟨j + 1, pts, by simpa using hget, ?_⟩
        rw [show k0 + (j + 1) = k0 + 1 + j from by omega]
        exact hinv
      · rintro ⟨j, pts, hget, hinv⟩
        cases j with
        | zero =>
          exfalso
          simp at hget
        | succ j3 =>
          refine ⟨j3, pts, by simpa using hget, ?_⟩
          rw [show k0 + 1 + j3 = k0 + (j3 + 1) from by omega]
          exact hinv
    | polygon q0 =>
      simp only [shapeStatusHit]
      constructor
      · rintro (hinv | ⟨j, pts, hget, hinv⟩)
        · exact ⟨0, q0, by simp, by simpa using hinv⟩
        · refine ⟨j + 1, pts, by simpa using hget, ?_⟩
          rw [show k0 + (j + 1) = k0 + 1 + j from by omega]
          exact hinv
      · rintro ⟨j, pts, hget, hinv⟩
        cases j with
        | zero =>
          left
          simp only [List.getElem?_cons_zero, Option.some.injEq,
            Shape.polygon.injEq] at hget
          rw [hget]
          simpa using hinv
        | succ j3 =>
          right
          refine ⟨j3, pts, by simpa using hget, ?_⟩
          rw [show k0 + 1 + j3 = k0 + (j3 + 1) from by omega]
          exact hinv

/-- C7: `#isInvalid` holds exactly when the polygon is self-intersecting or
crosses another committed polygon, and after a redraw the status attribute
is 2 exactly when some drawn polygon (committed, or the open in-progress
one in polygon drawing mode) is invalid, 1 exactly when nothing invalid was
drawn and no committed polygon exists, and 0 otherwise. -/
theorem isInvalid_and_redraw_status (g : GeomOps) (st : EditorState)
    (skip : Option ℕ) (opn : Bool) (p : List Point2) :
    (isInvalid g st.shapes skip opn p = true ↔
      g.selfIntersecting opn p = true ∨
        ∃ k q, st.shapes[k]? = some (Shape.polygon q) ∧ skip ≠ some k ∧
          g.polyIntersects opn p q = true) ∧
    ((redraw g st).statusAttr = 2 ↔
      ((∃ k pts, st.shapes[k]? = some (Shape.polygon pts) ∧
          isInvalid g st.shapes (some k) false pts = true) ∨
        (st.state = MachineState.drawing ∧
          st.drawingMode = DrawingMode.polygon ∧
          isInvalid g st.shapes none true st.currentShape = true))) ∧
    ((redraw g st).statusAttr = 1 ↔
      (¬ ((∃ k pts, st.shapes[k]? = some (Shape.polygon pts) ∧
            isInvalid g st.shapes (some k) false pts = true) ∨
          (st.state = MachineState.drawing ∧
            st.drawingMode = DrawingMode.polygon ∧
            isInvalid g st.shapes none true st.currentShape = true)) ∧
        ∀ s ∈ st.shapes, s.isPolygon = false)) ∧
    ((redraw g st).statusAttr = 0 ↔
      (¬ ((∃ k pts, st.shapes[k]? = some (Shape.polygon pts) ∧
            isInvalid g st.shapes (some k) false pts = true) ∨
          (st.state = MachineState.drawing ∧
            st.drawingMode = DrawingMode.polygon ∧
            isInvalid g st.shapes none true st.currentShape = true)) ∧
        ¬ ∀ s ∈ st.shapes, s.isPolygon = false)) := by
  constructor
  · simp only [isInvalid, Bool.or_eq_true]
    rw [isInvalidScan_iff g opn p skip st.shapes 0]
    simp
  · have hstat : (redraw g st).statusAttr = redrawStatus g st := rfl
    have hErr : anyInvalidFrom g st.shapes 0 st.shapes = true ↔
        ∃ k pts, st.shapes[k]? = some (Shape.polygon pts) ∧
          isInvalid g st.shapes (some k) false pts = true := by
      rw [anyInvalidFrom_iff g st.shapes st.shapes 0]
      simp
    have hNoP : (st.shapes.filter Shape.isPolygon).length = 0 ↔
        ∀ s ∈ st.shapes, s.isPolygon = false := by
      rw [List.length_eq_zero, List.filter_eq_nil_iff]
      simp
    rw [hstat]
    simp only [redrawStatus, statusScan_eq]
    by_cases hB : st.state = MachineState.drawing ∧
        st.drawingMode = DrawingMode.polygon
    · simp only [if_pos hB]
      by_cases hC : isInvalid g st.shapes none true st.currentShape = true
      · simp only [if_pos hC, Option.getD_some]
        have hErrTrue : (∃ k pts, st.shapes[k]? = some (Shape.polygon pts) ∧
            isInvalid g st.shapes (some k) false pts = true) ∨
            (st.state = MachineState.drawing ∧
              st.drawingMode = DrawingMode.polygon ∧
              isInvalid g st.shapes none true st.currentShape = true) :=
          Or.inr ⟨hB.1, hB.2, hC⟩
        exact ⟨iff_of_true trivial hErrTrue,
          iff_of_false (by norm_num) (fun h => h.1 hErrTrue),
          iff_of_false (by norm_num) (fun h => h.1 hErrTrue)⟩
      · simp only [if_neg hC]
        by_cases hAv : anyInvalidFrom g st.shapes 0 st.shapes = true
        · simp only [if_pos hAv, Option.getD_some]
          have hErrTrue : (∃ k pts,
              st.shapes[k]? = some (Shape.polygon pts) ∧
              isInvalid g st.shapes (some k) false pts = true) ∨
              (st.state = MachineState.drawing ∧
                st.drawingMode = DrawingMode.polygon ∧
                isInvalid g st.shapes none true st.currentShape = true) :=
            Or.inl (hErr.mp hAv)
          exact ⟨iff_of_true trivial hErrTrue,
            iff_of_false (by norm_num) (fun h => h.1 hErrTrue),
            iff_of_false (by norm_num) (fun h => h.1 hErrTrue)⟩
        · simp only [if_neg hAv]
          have hNoErr : ¬ ((∃ k pts,
              st.shapes[k]? = some (Shape.polygon pts) ∧
              isInvalid g st.shapes (some k) false pts = true) ∨
              (st.state = MachineState.drawing ∧
                st.drawingMode = DrawingMode.polygon ∧
                isInvalid g st.shapes none true st.currentShape = true)) := by
            rintro (hx | hx)
            · exact hAv (hErr.mpr hx)
            · exact hC hx.2.2
          by_cases hnp : (st.shapes.filter Shape.isPolygon).length = 0
          · simp only [if_pos hnp, Option.getD_some]
            exact ⟨iff_of_false (by norm_num) hNoErr,
              iff_of_true trivial ⟨hNoErr, hNoP.mp hnp⟩,
              iff_of_false (by norm_num) (fun h => h.2 (hNoP.mp hnp))⟩
          · simp only [if_neg hnp, Option.getD_none]
            exact ⟨iff_of_false (by norm_num) hNoErr,
              iff_of_false (by norm_num) (fun h => hnp (hNoP.mpr h.2)),
              iff_of_true trivial ⟨hNoErr, fun hall => hnp (hNoP.mpr hall)⟩⟩
    · simp only [if_neg hB]
      by_cases hAv : anyInvalidFrom g st.shapes 0 st.shapes = true
      · simp only [if_pos hAv, Option.getD_some]
        have hErrTrue : (∃ k pts,
            st.shapes[k]? = some (Shape.polygon pts) ∧
            isInvalid g st.shapes (some k) false pts = true) ∨
            (st.state = MachineState.drawing ∧
              st.drawingMode = DrawingMode.polygon ∧
              isInvalid g st.shapes none true st.currentShape = true) :=
          Or.inl (hErr.mp hAv)
        exact ⟨iff_of_true trivial hErrTrue,
          iff_of_false (by norm_num) (fun h => h.1 hErrTrue),
          iff_of_false (by norm_num) (fun h => h.1 hErrTrue)⟩
      · simp only [if_neg hAv]
        have hNoErr : ¬ ((∃ k pts,
            st.shapes[k]? = some (Shape.polygon pts) ∧
            isInvalid g st.shapes (some k) false pts = true) ∨
            (st.state = MachineState.drawing ∧
              st.drawingMode = DrawingMode.polygon ∧
              isInvalid g st.shapes none true st.currentShape = true)) := by
          rintro (hx | hx)
          · exact hAv (hErr.mpr hx)
          · exact hB ⟨hx.1, hx.2.1⟩
        by_cases hnp : (st.shapes.filter Shape.isPolygon).length = 0
        · simp only [if_pos hnp, Option.getD_some]
          exact ⟨iff_of_false (by norm_num) hNoErr,
            iff_of_true trivial ⟨hNoErr, hNoP.mp hnp⟩,
            iff_of_false (by norm_num) (fun h => h.2 (hNoP.mp hnp))⟩
        · simp only [if_neg hnp, Option.getD_none]
          exact ⟨iff_of_false (by norm_num) hNoErr,
            iff_of_false (by norm_num) (fun h => hnp (hNoP.mpr h.2)),
            iff_of_true trivial ⟨hNoErr, fun hall => hnp (hNoP.mpr hall)⟩⟩

end ZeroWM
